import Mathlib

/-!
Shallow embedding of the flashcard application from `src/main.py`
(class `FlashcardDB`).

The orchestrator keeps a persistent document store (MongoDB collection)
synchronized with five in-memory views that all reference the same card
objects: an ordered linked list, an id index (`_node_index`), a category
grouping (`CategoryManager`), a FIFO practice queue (`collections.deque`)
and a LIFO review stack (`ReviewHistory`).

Modelling decisions:
- Store-assigned ids are natural numbers handed out by a counter
  (`nextId`), standing in for MongoDB ObjectIds; `_ensure_oid` is the
  identity under this representation.
- The shared mutable card objects are modelled as an arena
  `cards : List (Nat × Card)`; every view stores ids and a field write
  through any view updates the (single) arena entry, which models
  Python's shared object references.  Arena entries are never removed
  (objects stay alive while referenced), lookups take the first match
  and new entries are prepended, so a fresh node shadows any stale one.
- Each public operation additionally returns the list of effects it
  performed, in program order, as `List Ev`: one event per store call
  issued and per in-memory mutation, used to state ordering claims.

`linkedlist.py`, `review_history.py` and `category_manager.py` are not
under `src/`; their operations are modelled from the spec where marked.
-/

/-- A flashcard node: the single mutable record shared by every view. -/
structure Card where
  question : String
  answer : String
  category : String
  deriving DecidableEq

/-- A persistent-store document; `category` may be absent on documents
that predate the field (it defaults to "Uncategorized" on load). -/
structure Doc where
  question : String
  answer : String
  category : Option String
  deriving DecidableEq

/-- One observable effect of an orchestrator call, in program order:
a call issued to the persistent store, or a mutation of one of the
in-memory structures (list, shared card fields, id index, practice
queue, review stack, category grouping). -/
inductive Ev where
  | storeCreate
  | storeUpdate
  | storeDelete
  | memList
  | memCard
  | memIdx
  | memQueue
  | memStack
  | memCat
  deriving DecidableEq

/-- The whole program state: the persistent collection plus the
in-memory structures of `FlashcardDB.__init__`. -/
structure DB where
  store : List (Nat × Doc)
  nextId : Nat
  cards : List (Nat × Card)
  linkedList : List Nat
  nodeIndex : List Nat
  practiceQueue : List Nat
  reviewStack : List Nat
  categories : List (String × List Nat)
  deriving DecidableEq

/-- Placeholder card for total lookups; never reached from states built
by the constructor, where every indexed id has an arena entry. -/
def noCard : Card := ⟨"", "", ""⟩

/-- First-match lookup in the card arena (dereferencing a node). -/
def lookupCard (cards : List (Nat × Card)) (id : Nat) : Option Card :=
  (cards.find? (fun p => p.1 == id)).map (fun p => p.2)

/-- Field write through a shared node reference: updates the first
arena entry with the given id, leaves everything else alone. -/
def updateCard (id : Nat) (f : Card → Card) : List (Nat × Card) → List (Nat × Card)
  | [] => []
  | (i, c) :: rest =>
    if i == id then (i, f c) :: rest else (i, c) :: updateCard id f rest

/-- The category a node currently carries (`node.category`). -/
def cardCategoryIn (cards : List (Nat × Card)) (id : Nat) : String :=
  ((lookupCard cards id).getD noCard).category

/-- `collection.find_one`-style lookup of a stored document. -/
def findDoc (store : List (Nat × Doc)) (id : Nat) : Option Doc :=
  (store.find? (fun p => p.1 == id)).map (fun p => p.2)

/-- Effect of a `$set` update on one document: `question` and `answer`
are always written; `category` only when it is part of the update. -/
def applySet (d : Doc) (q a : String) (cat : Option String) : Doc :=
  { question := q, answer := a,
    category := match cat with | some c => some c | none => d.category }

/-- `collection.update_one({_id: id}, {$set: fields})`: updates the
first matching document; reports `modified_count > 0`, i.e. whether a
matching document actually changed. -/
def updateOne (store : List (Nat × Doc)) (id : Nat) (q a : String) (cat : Option String) :
    List (Nat × Doc) × Bool :=
  match store with
  | [] => ([], false)
  | (i, d) :: rest =>
    if i == id then
      let d2 := applySet d q a cat
      ((i, d2) :: rest, decide (d2 ≠ d))
    else
      let r := updateOne rest id q a cat
      ((i, d) :: r.1, r.2)

/-- `collection.delete_one({_id: id})`: removes the first matching
document; reports `deleted_count > 0`. -/
def deleteOne (store : List (Nat × Doc)) (id : Nat) : List (Nat × Doc) × Bool :=
  match store with
  | [] => ([], false)
  | (i, d) :: rest =>
    if i == id then (rest, true)
    else
      let r := deleteOne rest id
      ((i, d) :: r.1, r.2)

/-- Python-dict key insertion for `_node_index[id] = node`: the key set
gains `id` (keys stay duplicate-free by construction). -/
def idxPut (idx : List Nat) (id : Nat) : List Nat :=
  if id ∈ idx then idx else idx ++ [id]

/-- Insertion into a category bucket keeping the bucket's canonical
(sorted) order; since store ids increase with creation time, this
coincides with insertion order for buckets never moved into. -/
def insertSorted (n : Nat) : List Nat → List Nat
  | [] => [n]
  | m :: rest => if n ≤ m then n :: m :: rest else m :: insertSorted n rest

/-- Modelled from the spec: `CategoryManager.add_to_category`
(`category_manager.py` is not under `src/`); inserts the card into the
named bucket, creating the bucket if absent (§4.3). -/
def addToCategory (cat : String) (id : Nat) : List (String × List Nat) → List (String × List Nat)
  | [] => [(cat, [id])]
  | (c, b) :: rest =>
    if c == cat then (c, insertSorted id b) :: rest
    else (c, b) :: addToCategory cat id rest

/-- Modelled from the spec: `CategoryManager.remove_from_category`;
deletes the card's entry from the named bucket (§4.3, no pruning). -/
def removeFromCategory (cat : String) (id : Nat) : List (String × List Nat) → List (String × List Nat)
  | [] => []
  | (c, b) :: rest =>
    if c == cat then (c, b.erase id) :: rest
    else (c, b) :: removeFromCategory cat id rest

/-- Modelled from the spec: `CategoryManager.update_category` is
`removeFrom` the old bucket followed by `addTo` the new one (§4.3). -/
def updateCategory (oldCat newCat : String) (id : Nat) (cats : List (String × List Nat)) :
    List (String × List Nat) :=
  addToCategory newCat id (removeFromCategory oldCat id cats)

/-- Bucket lookup backing `get_by_category` (empty if unknown). -/
def lookupBucket (cats : List (String × List Nat)) (cat : String) : List Nat :=
  match cats with
  | [] => []
  | (c, b) :: rest => if c == cat then b else lookupBucket rest cat

/-- Modelled from the spec: `ReviewHistory.pop` (`review_history.py` is
not under `src/`); the stack is a Python list with its top at the end
(`main.py` accesses `review_history.stack` directly), so `pop` removes
and returns the last element, or reports empty (§4.5). -/
def rhPop : List Nat → Option Nat × List Nat
  | [] => (none, [])
  | [x] => (some x, [])
  | x :: y :: rest =>
    let r := rhPop (y :: rest)
    (r.1, x :: r.2)

/-- Truthiness of the optional `new_cat` argument of `edit_card`: the
code tests `if new_cat:`, so `None` and `""` both count as absent. -/
def truthyCat : Option String → Bool
  | none => false
  | some c => if c = "" then false else true

/-- `FlashcardDB.add_card` (main.py lines 47-60): store insert first,
then the in-memory half (list append, index, queue, category).  The
linked-list append is modelled from the spec (§4.1, `append` adds to
the tail); node construction is the new arena entry. -/
def addCard (s : DB) (q a cat : String) : DB × Nat × List Ev :=
  let id := s.nextId
  let store2 := s.store ++ [(id, ⟨q, a, some cat⟩)]
  let cards2 := (id, ⟨q, a, cat⟩) :: s.cards
  let ll2 := s.linkedList ++ [id]
  let idx2 := idxPut s.nodeIndex id
  let pq2 := s.practiceQueue ++ [id]
  let cats2 := addToCategory cat id s.categories
  ({ store := store2, nextId := id + 1, cards := cards2, linkedList := ll2,
     nodeIndex := idx2, practiceQueue := pq2, reviewStack := s.reviewStack,
     categories := cats2 },
   id,
   [.storeCreate, .memList, .memIdx, .memQueue, .memCat])

/-- The in-memory half of `add_card` (main.py lines 51-57), as the spec
names it: append to the ordered list, insert into the card index,
enqueue into the practice queue, insert into the category grouping. -/
def addMemHalf (s : DB) (id : Nat) (q a cat : String) : DB :=
  { s with cards := (id, ⟨q, a, cat⟩) :: s.cards,
           linkedList := s.linkedList ++ [id],
           nodeIndex := idxPut s.nodeIndex id,
           practiceQueue := s.practiceQueue ++ [id],
           categories := addToCategory cat id s.categories }

/-- One iteration of `FlashcardDB._load_cards_into_memory` (main.py
lines 38-45): rebuild the in-memory views for one stored document,
defaulting a missing category to "Uncategorized", without touching the
store. -/
def loadOne (s : DB) (id : Nat) (d : Doc) : DB :=
  let cat := d.category.getD "Uncategorized"
  { s with cards := (id, ⟨d.question, d.answer, cat⟩) :: s.cards,
           linkedList := s.linkedList ++ [id],
           nodeIndex := idxPut s.nodeIndex id,
           practiceQueue := s.practiceQueue ++ [id],
           categories := addToCategory cat id s.categories }

/-- Fresh in-memory structures over a given store content and id
counter, as `__init__` sets them up before loading. -/
def baseDB (docs : List (Nat × Doc)) (nid : Nat) : DB :=
  { store := docs, nextId := nid, cards := [], linkedList := [],
    nodeIndex := [], practiceQueue := [], reviewStack := [], categories := [] }

/-- The per-document effect events of the load loop. -/
def loadEvs : List Ev := [.memList, .memIdx, .memQueue, .memCat]

/-- `FlashcardDB.__init__` over a store holding `docs`: sets up empty
views, then runs `_load_cards_into_memory` over every stored document
in order. -/
def loadDB (docs : List (Nat × Doc)) (nid : Nat) : DB × List Ev :=
  (docs.foldl (fun t p => loadOne t p.1 p.2) (baseDB docs nid),
   (docs.map (fun _ => loadEvs)).flatten)

/-- `FlashcardDB.edit_card` (main.py lines 62-86).  Line 64 first runs
the linked-list update (modelled from the spec §4.1: mutates the shared
node's question/answer in place, fails if the id is absent from the
list); lines 65-71 issue the store update, including `category` in the
`$set` document only when `new_cat` is truthy; lines 73-80 then write
the shared node's fields and, when `new_cat` is truthy, move the node
between category buckets; lines 82-86 return `ok_list and ok_db`. -/
def editCard (s : DB) (cardId : Nat) (newQ newA : String) (newCat : Option String) :
    DB × Bool × List Ev :=
  let okList := cardId ∈ s.linkedList
  let cards1 :=
    if cardId ∈ s.linkedList then
      updateCard cardId (fun c => { c with question := newQ, answer := newA }) s.cards
    else s.cards
  let ev1 : List Ev := if cardId ∈ s.linkedList then [.memList] else []
  let catField : Option String := if truthyCat newCat then newCat else none
  let u := updateOne s.store cardId newQ newA catField
  let okDb := u.2
  if cardId ∈ s.nodeIndex then
    let cards2 := updateCard cardId (fun c => { c with question := newQ, answer := newA }) cards1
    if truthyCat newCat then
      let oldCat := cardCategoryIn cards2 cardId
      let newC := newCat.getD ""
      let cards3 := updateCard cardId (fun c => { c with category := newC }) cards2
      let cats2 := updateCategory oldCat newC cardId s.categories
      ({ s with store := u.1, cards := cards3, categories := cats2 },
       decide okList && okDb,
       ev1 ++ [.storeUpdate, .memCard, .memCat])
    else
      ({ s with store := u.1, cards := cards2 },
       decide okList && okDb,
       ev1 ++ [.storeUpdate, .memCard])
  else
    ({ s with store := u.1, cards := cards1 },
     decide okList && okDb,
     ev1 ++ [.storeUpdate])

/-- `FlashcardDB.delete_card` (main.py lines 88-105).  Line 90 first
runs the linked-list removal (modelled from the spec §4.1: removes the
entry, fails if absent); line 91 issues the store delete; lines 93-99
pop the id from the index and, if it was present, remove the node's
first occurrence from the practice queue (`deque.remove`) and from the
review stack (`list.remove`) and remove it from its category bucket;
lines 101-105 return `ok_list and ok_db`. -/
def deleteCard (s : DB) (cardId : Nat) : DB × Bool × List Ev :=
  let okList := cardId ∈ s.linkedList
  let ll2 := s.linkedList.erase cardId
  let ev1 : List Ev := if cardId ∈ s.linkedList then [.memList] else []
  let del := deleteOne s.store cardId
  if cardId ∈ s.nodeIndex then
    let idx2 := s.nodeIndex.erase cardId
    let node := (lookupCard s.cards cardId).getD noCard
    let evq : List Ev := if cardId ∈ s.practiceQueue then [.memQueue] else []
    let pq2 := s.practiceQueue.erase cardId
    let evs : List Ev := if cardId ∈ s.reviewStack then [.memStack] else []
    let rs2 := s.reviewStack.erase cardId
    let cats2 := removeFromCategory node.category cardId s.categories
    ({ s with store := del.1, linkedList := ll2, nodeIndex := idx2,
              practiceQueue := pq2, reviewStack := rs2, categories := cats2 },
     decide okList && del.2,
     ev1 ++ [.storeDelete, .memIdx] ++ evq ++ evs ++ [.memCat])
  else
    ({ s with store := del.1, linkedList := ll2 },
     decide okList && del.2,
     ev1 ++ [.storeDelete])

/-- `FlashcardDB.next_card` (main.py lines 107-108): pop the practice
queue's head, or report empty. -/
def nextCard (s : DB) : Option Nat × DB :=
  match s.practiceQueue with
  | [] => (none, s)
  | x :: rest => (some x, { s with practiceQueue := rest })

/-- `FlashcardDB.mark_reviewed` (main.py lines 110-120): resolve the
node through the index; if absent, fail without touching anything;
otherwise push onto the review stack (modelled from the spec §4.5:
append at the top) and, when the review was incorrect, re-enqueue the
same node at the queue's tail. -/
def markReviewed (s : DB) (cardId : Nat) (correct : Bool) : DB × Bool × List Ev :=
  if cardId ∈ s.nodeIndex then
    if correct then
      ({ s with reviewStack := s.reviewStack ++ [cardId] }, true, [.memStack])
    else
      ({ s with reviewStack := s.reviewStack ++ [cardId],
                practiceQueue := s.practiceQueue ++ [cardId] },
       true, [.memStack, .memQueue])
  else
    (s, false, [])

/-- `FlashcardDB.revisit_last` (main.py lines 122-123): pop the review
stack. -/
def revisitLast (s : DB) : Option Nat × DB :=
  let r := rhPop s.reviewStack
  (r.1, { s with reviewStack := r.2 })

/-- `FlashcardDB.get_by_category` (main.py lines 125-126). -/
def getByCategory (s : DB) (cat : String) : List Nat :=
  lookupBucket s.categories cat

/-- `n` successive `next_card` calls. -/
def dequeueN : Nat → DB → DB
  | 0, s => s
  | n + 1, s => dequeueN n (nextCard s).2

/-- Outcome of the store half of an `edit_card` call: whether
`update_one` reported the document as modified. -/
def editStoreOk (s : DB) (cardId : Nat) (newQ newA : String) (newCat : Option String) : Bool :=
  (updateOne s.store cardId newQ newA (if truthyCat newCat then newCat else none)).2

/-- Outcome of the ordered-list half of an `edit_card` call (modelled
from the spec §4.1: the update fails exactly when the id is absent). -/
def llEditOk (s : DB) (cardId : Nat) : Bool :=
  decide (cardId ∈ s.linkedList)

/-- Store events among the effect alphabet. -/
def isStoreEv : Ev → Bool
  | .storeCreate => true
  | .storeUpdate => true
  | .storeDelete => true
  | _ => false

/-- True when no in-memory mutation happens before the operation's
store call: the stretch of events preceding the first store event
contains nothing (every event is a store call or a memory mutation). -/
def storePrecedesMem (t : List Ev) : Bool :=
  (t.takeWhile (fun e => isStoreEv e = false)).isEmpty

/-- True when the only in-memory mutations preceding the operation's
first store call are ordered-list mutations. -/
def onlyListThenStore (t : List Ev) : Bool :=
  (t.takeWhile (fun e => isStoreEv e = false)).all (fun e => e == Ev.memList)

/-- The empty initial state (fresh store, nothing loaded). -/
def db0 : DB :=
  { store := [], nextId := 0, cards := [], linkedList := [], nodeIndex := [],
    practiceQueue := [], reviewStack := [], categories := [] }

/-- Store/view consistency, as established by the constructor and
maintained by the operations: list, index and store agree on which ids
exist, each indexed node's fields mirror its stored document (with the
"Uncategorized" default), each indexed node sits in the bucket of its
own category, and buckets are in canonical order. -/
@[reducible] def Consistent (s : DB) : Prop :=
  (∀ id ∈ s.linkedList, id ∈ s.nodeIndex) ∧
  (∀ id ∈ s.nodeIndex, id ∈ s.linkedList) ∧
  (∀ p ∈ s.store, p.1 ∈ s.nodeIndex) ∧
  (∀ id ∈ s.nodeIndex, (findDoc s.store id).isSome = true) ∧
  (∀ p ∈ s.store,
      lookupCard s.cards p.1 =
        some ⟨p.2.question, p.2.answer, p.2.category.getD "Uncategorized"⟩) ∧
  (∀ id ∈ s.nodeIndex, id ∈ lookupBucket s.categories (cardCategoryIn s.cards id)) ∧
  (∀ b ∈ s.categories, List.Pairwise (fun m n => m ≤ n) b.2)

/-- Concrete one-card state used by witnesses and counterexamples:
a fresh database after `add_card("Q1", "A1", "Math")`. -/
def wdb : DB := (addCard db0 "Q1" "A1" "Math").1

/-- Concrete three-card state for the C6 witness. -/
def wdb3 : DB :=
  (addCard ((addCard ((addCard db0 "Q1" "A1" "Math").1) "Q2" "A2" "Math").1) "Q3" "A3" "Sci").1

/-- Concrete states for the C3 evaluation: one incorrect review (card
queued twice) then delete; two reviews (card on the stack twice) then
delete. -/
def c3QueueState : DB := (deleteCard (markReviewed wdb 0 false).1 0).1

/-- Second C3 state, exercising the review stack. -/
def c3StackState : DB :=
  (deleteCard (markReviewed (markReviewed wdb 0 true).1 0 true).1 0).1

-- ===== helper lemmas =====

theorem findDoc_cons (i : Nat) (d : Doc) (rest : List (Nat × Doc)) (id : Nat) :
    findDoc ((i, d) :: rest) id = if i == id then some d else findDoc rest id := by
  by_cases hi : i == id <;> simp [findDoc, List.find?, hi]

theorem updateOne_not_modified (st : List (Nat × Doc)) (id : Nat) (q a : String)
    (cat : Option String) (h : (updateOne st id q a cat).2 = false) :
    (updateOne st id q a cat).1 = st := by
  induction st with
  | nil => rfl
  | cons p rest ih =>
    obtain ⟨i, d⟩ := p
    by_cases hi : i == id
    · simp [updateOne, hi] at h ⊢
      exact h
    · simp [updateOne, hi] at h ⊢
      exact ih h

theorem findDoc_some_mem (st : List (Nat × Doc)) (id : Nat) (d : Doc)
    (h : findDoc st id = some d) : (id, d) ∈ st := by
  induction st with
  | nil => simp [findDoc] at h
  | cons p rest ih =>
    obtain ⟨i, dd⟩ := p
    rw [findDoc_cons] at h
    by_cases hi : i == id
    · rw [if_pos hi] at h
      have h1 : i = id := by simpa using hi
      have h2 : dd = d := by simpa using h
      simp [h1, h2]
    · rw [if_neg hi] at h
      exact List.mem_cons_of_mem _ (ih h)

theorem updateOne_found_not_modified (st : List (Nat × Doc)) (id : Nat) (q a : String)
    (cat : Option String) (d : Doc) (hd : findDoc st id = some d)
    (h : (updateOne st id q a cat).2 = false) : applySet d q a cat = d := by
  induction st with
  | nil => simp [findDoc] at hd
  | cons p rest ih =>
    obtain ⟨i, dd⟩ := p
    rw [findDoc_cons] at hd
    by_cases hi : i == id
    · rw [if_pos hi] at hd
      have h2 : dd = d := by simpa using hd
      simp [updateOne, hi] at h
      rw [h2] at h
      exact h
    · rw [if_neg hi] at hd
      simp [updateOne, hi] at h
      exact ih hd h

theorem findDoc_none_not_mem (st : List (Nat × Doc)) (id : Nat)
    (h : findDoc st id = none) : ∀ p ∈ st, p.1 ≠ id := by
  intro p hp heq
  unfold findDoc at h
  cases hf : st.find? (fun p => p.1 == id) with
  | none =>
    have := List.find?_eq_none.mp hf p hp
    simp [heq] at this
  | some q => simp [hf] at h

theorem lookupCard_cons (i : Nat) (c : Card) (rest : List (Nat × Card)) (id : Nat) :
    lookupCard ((i, c) :: rest) id = if i == id then some c else lookupCard rest id := by
  by_cases hi : i == id <;> simp [lookupCard, List.find?, hi]

theorem updateCard_eq_self (cards : List (Nat × Card)) (id : Nat) (f : Card → Card)
    (h : ∀ c, lookupCard cards id = some c → f c = c) :
    updateCard id f cards = cards := by
  induction cards with
  | nil => rfl
  | cons p rest ih =>
    obtain ⟨i, c⟩ := p
    rw [lookupCard_cons] at h
    by_cases hi : i == id
    · have := h c (by rw [if_pos hi])
      simp [updateCard, hi, this]
    · have hrec := ih (by intro c hc; exact h c (by rw [if_neg hi]; exact hc))
      simp [updateCard, hi, hrec]

theorem insertSorted_erase (b : List Nat) (id : Nat)
    (hmem : id ∈ b) (hs : List.Pairwise (fun m n => m ≤ n) b) :
    insertSorted id (b.erase id) = b := by
  induction b with
  | nil => simp at hmem
  | cons m rest ih =>
    by_cases hm : m = id
    · subst hm
      rw [List.erase_cons_head]
      cases rest with
      | nil => rfl
      | cons y ys =>
        have hle : m ≤ y := (List.pairwise_cons.mp hs).1 y (by simp)
        simp [insertSorted, hle]
    · have hne : (m == id) = false := by simpa using hm
      rw [List.erase_cons, hne]
      have hmem2 : id ∈ rest := by
        cases List.mem_cons.mp hmem with
        | inl h => exact absurd h.symm hm
        | inr h => exact h
      have hs2 := (List.pairwise_cons.mp hs).2
      have hle : m ≤ id := (List.pairwise_cons.mp hs).1 id hmem2
      have hnle : ¬ id ≤ m := by
        intro hc
        exact hm (Nat.le_antisymm hle hc)
      simp only [insertSorted]
      rw [if_neg hnle, ih hmem2 hs2]

theorem count_insertSorted (b : List Nat) (id : Nat) :
    (insertSorted id b).count id = b.count id + 1 := by
  induction b with
  | nil => simp [insertSorted]
  | cons m rest ih =>
    by_cases hle : id ≤ m
    · simp [insertSorted, hle, List.count_cons]
    · have hne : ¬ (m = id) := by
        intro hc
        exact hle (Nat.le_of_eq hc.symm)
      simp [insertSorted, hle, List.count_cons, ih, hne]

theorem lookupBucket_addTo (cats : List (String × List Nat)) (cat : String) (id : Nat) :
    lookupBucket (addToCategory cat id cats) cat = insertSorted id (lookupBucket cats cat) := by
  induction cats with
  | nil => simp [addToCategory, lookupBucket, insertSorted]
  | cons p rest ih =>
    obtain ⟨c, b⟩ := p
    by_cases hc : c == cat
    · simp [addToCategory, lookupBucket, hc]
    · simp [addToCategory, lookupBucket, hc, ih]

theorem lookupBucket_removeFrom (cats : List (String × List Nat)) (cat : String) (id : Nat) :
    lookupBucket (removeFromCategory cat id cats) cat = (lookupBucket cats cat).erase id := by
  induction cats with
  | nil => simp [removeFromCategory, lookupBucket]
  | cons p rest ih =>
    obtain ⟨c, b⟩ := p
    by_cases hc : c == cat
    · simp [removeFromCategory, lookupBucket, hc]
    · simp [removeFromCategory, lookupBucket, hc, ih]

theorem updateCategory_self (cats : List (String × List Nat)) (cat : String) (id : Nat)
    (hmem : id ∈ lookupBucket cats cat)
    (hs : ∀ b ∈ cats, List.Pairwise (fun m n => m ≤ n) b.2) :
    updateCategory cat cat id cats = cats := by
  induction cats with
  | nil => simp [lookupBucket] at hmem
  | cons p rest ih =>
    obtain ⟨c, b⟩ := p
    by_cases hc : c == cat
    · have hb : id ∈ b := by simpa [lookupBucket, hc] using hmem
      have hsb := hs (c, b) (by simp)
      simp [updateCategory, removeFromCategory, addToCategory, hc,
            insertSorted_erase b id hb hsb]
    · have hmem2 : id ∈ lookupBucket rest cat := by simpa [lookupBucket, hc] using hmem
      have hs2 : ∀ b ∈ rest, List.Pairwise (fun m n => m ≤ n) b.2 := by
        intro bb hbb
        exact hs bb (List.mem_cons_of_mem _ hbb)
      have := ih hmem2 hs2
      simp only [updateCategory, removeFromCategory, addToCategory, hc] at this ⊢
      simp [hc, this]

theorem dequeueN_split (l r : List Nat) (s : DB) (h : s.practiceQueue = l ++ r) :
    (dequeueN l.length s).practiceQueue = r := by
  induction l generalizing s with
  | nil => simpa using h
  | cons x xs ih =>
    have hstep : (nextCard s).2.practiceQueue = xs ++ r := by
      unfold nextCard
      rw [h]
      rfl
    simpa [dequeueN] using ih _ hstep

theorem markReviewed_stack (s : DB) (id : Nat) (k : Bool) (h : id ∈ s.nodeIndex) :
    ((markReviewed s id k).1).reviewStack = s.reviewStack ++ [id] ∧
    ((markReviewed s id k).1).nodeIndex = s.nodeIndex := by
  cases k <;> simp [markReviewed, h]

theorem load_foldl_store (docs : List (Nat × Doc)) (t : DB) :
    (docs.foldl (fun t p => loadOne t p.1 p.2) t).store = t.store := by
  induction docs generalizing t with
  | nil => rfl
  | cons p rest ih =>
    simp only [List.foldl_cons]
    rw [ih]
    rfl

-- ===== claim theorems =====

/-- C4: after `delete(id)` the id is gone from the card index, so a
subsequent `mark_reviewed(id, correct)` returns false and changes
nothing at all. -/
theorem delete_then_mark_reviewed_fails (s : DB) (id : Nat) (k : Bool)
    (hnd : s.nodeIndex.Nodup) :
    id ∉ ((deleteCard s id).1).nodeIndex ∧
    markReviewed ((deleteCard s id).1) id k = (((deleteCard s id).1), false, []) := by
  have hni : id ∉ ((deleteCard s id).1).nodeIndex := by
    by_cases h : id ∈ s.nodeIndex
    · have : ((deleteCard s id).1).nodeIndex = s.nodeIndex.erase id := by
        simp [deleteCard, h]
      rw [this]
      intro hc
      exact ((hnd.mem_erase_iff.mp hc).1) rfl
    · have : ((deleteCard s id).1).nodeIndex = s.nodeIndex := by
        simp [deleteCard, h]
      rw [this]
      exact h
  exact ⟨hni, by simp [markReviewed, hni]⟩

theorem delete_then_mark_reviewed_fails_witness :
    wdb.nodeIndex.Nodup ∧
    (0 ∉ ((deleteCard wdb 0).1).nodeIndex ∧
     markReviewed ((deleteCard wdb 0).1) 0 true = (((deleteCard wdb 0).1), false, [])) :=
  ⟨by decide, delete_then_mark_reviewed_fails wdb 0 true (by decide)⟩

/-- C5: an incorrect review re-enqueues the reviewed card at the tail
of the practice queue (so it comes back only after everything that was
already queued), while a correct review enqueues nothing. -/
theorem mark_incorrect_requeues_at_tail (s : DB) (id : Nat) (h : id ∈ s.nodeIndex) :
    ((markReviewed s id false).1).practiceQueue = s.practiceQueue ++ [id] ∧
    ((markReviewed s id true).1).practiceQueue = s.practiceQueue ∧
    (nextCard (dequeueN s.practiceQueue.length (markReviewed s id false).1)).1 = some id := by
  have hq : ((markReviewed s id false).1).practiceQueue = s.practiceQueue ++ [id] := by
    simp [markReviewed, h]
  refine ⟨hq, by simp [markReviewed, h], ?_⟩
  have hd := dequeueN_split s.practiceQueue [id] _ hq
  simp [nextCard, hd]

theorem mark_incorrect_requeues_at_tail_witness :
    (0 ∈ wdb.nodeIndex) ∧
    (((markReviewed wdb 0 false).1).practiceQueue = wdb.practiceQueue ++ [0] ∧
     ((markReviewed wdb 0 true).1).practiceQueue = wdb.practiceQueue ∧
     (nextCard (dequeueN wdb.practiceQueue.length (markReviewed wdb 0 false).1)).1 = some 0) :=
  ⟨by decide, mark_incorrect_requeues_at_tail wdb 0 (by decide)⟩

/-- C7: `edit_card` returns true exactly when both the ordered-list
update and the store update succeeded, and the store keeps whatever the
update wrote even when the overall result is false (no rollback). -/
theorem edit_returns_conjunction (s : DB) (id : Nat) (q a : String) (cat : Option String) :
    (editCard s id q a cat).2.1 = (llEditOk s id && editStoreOk s id q a cat) ∧
    (editCard s id q a cat).1.store =
      (updateOne s.store id q a (if truthyCat cat then cat else none)).1 := by
  unfold editCard llEditOk editStoreOk
  by_cases h1 : id ∈ s.nodeIndex <;> by_cases h2 : truthyCat cat <;> simp [h1, h2]

/-- C10: passing the empty string as the new category behaves exactly
like passing no category at all, because the code tests truthiness. -/
theorem edit_empty_category_like_none (s : DB) (id : Nat) (q a : String) :
    editCard s id q a (some "") = editCard s id q a none := rfl

/-- C1 counterexample: on a one-card database, `edit_card` mutates the
ordered list (line 64) before issuing the store update (lines 69-71),
so the claimed store-before-memory ordering fails on a concrete call. -/
theorem edit_trace_not_store_first :
    storePrecedesMem (editCard wdb 0 "X" "Y" none).2.2 = false := by decide

/-- C1 amended: `add_card` issues its store insert before every
in-memory mutation; `edit_card` and `delete_card` mutate the ordered
list first, and every other in-memory mutation (index, shared card
fields, queue, stack, category grouping) happens only after the store
call has been issued. -/
theorem mutation_order_amended (s : DB) (q a cat : String) (id : Nat) (oc : Option String) :
    storePrecedesMem (addCard s q a cat).2.2 = true ∧
    onlyListThenStore (editCard s id q a oc).2.2 = true ∧
    onlyListThenStore (deleteCard s id).2.2 = true := by
  refine ⟨rfl, ?_, ?_⟩
  · unfold editCard
    by_cases h1 : id ∈ s.linkedList <;> by_cases h2 : id ∈ s.nodeIndex <;>
      by_cases h3 : truthyCat oc <;>
      simp [h1, h2, h3, onlyListThenStore, isStoreEv, List.takeWhile, List.all]
  · unfold deleteCard
    by_cases h1 : id ∈ s.linkedList <;> by_cases h2 : id ∈ s.nodeIndex <;>
      by_cases h3 : id ∈ s.practiceQueue <;> by_cases h4 : id ∈ s.reviewStack <;>
      simp [h1, h2, h3, h4, onlyListThenStore, isStoreEv, List.takeWhile, List.all]

/-- C3 (bug evaluation): after `add`, one incorrect review leaves the
card queued twice; `delete_card` removes only the first matching queue
entry (`deque.remove`), so one practice-queue entry for the deleted
card survives.  Likewise two reviews leave two stack entries and
`list.remove` purges only one. -/
theorem delete_leaves_requeued_entries :
    c3QueueState.practiceQueue.count 0 = 1 ∧
    0 ∉ c3QueueState.nodeIndex ∧
    c3StackState.reviewStack.count 0 = 1 ∧
    0 ∉ c3StackState.nodeIndex := by decide

/-- C8: the constructor rebuilds the in-memory views by folding exactly
the in-memory half of `add_card` over every stored document (defaulting
a missing category to "Uncategorized"), issues no store call while
doing so, and leaves the store contents untouched; and `add_card`
itself is the store insert composed with that same in-memory half. -/
theorem startup_load_is_mem_half_of_add (docs : List (Nat × Doc)) (nid : Nat) :
    (loadDB docs nid).1 =
      docs.foldl
        (fun t p => addMemHalf t p.1 p.2.question p.2.answer (p.2.category.getD "Uncategorized"))
        (baseDB docs nid) ∧
    (∀ e ∈ (loadDB docs nid).2, isStoreEv e = false) ∧
    (loadDB docs nid).1.store = docs ∧
    (∀ s q a cat, (addCard s q a cat).1 =
       { addMemHalf s s.nextId q a cat with
           store := s.store ++ [(s.nextId, ⟨q, a, some cat⟩)],
           nextId := s.nextId + 1 }) := by
  refine ⟨rfl, ?_, ?_, fun s q a cat => rfl⟩
  · intro e he
    simp only [loadDB, List.mem_flatten, List.mem_map] at he
    obtain ⟨l, ⟨p, hp, hl⟩, hel⟩ := he
    rw [← hl] at hel
    fin_cases hel <;> rfl
  · show (docs.foldl (fun t p => loadOne t p.1 p.2) (baseDB docs nid)).store = docs
    rw [load_foldl_store]
    rfl

/-- C6: three successful reviews of cards `a`, `b`, `c` (in that order,
from an empty review history) make successive `revisit_last` calls
yield `c`, then `b`, then `a`, then the empty result. -/
theorem revisit_last_reverse_order (s : DB) (a b c : Nat) (ka kb kc : Bool)
    (ha : a ∈ s.nodeIndex) (hb : b ∈ s.nodeIndex) (hc : c ∈ s.nodeIndex)
    (hempty : s.reviewStack = []) :
    let s3 := (markReviewed (markReviewed (markReviewed s a ka).1 b kb).1 c kc).1
    let r1 := revisitLast s3
    let r2 := revisitLast r1.2
    let r3 := revisitLast r2.2
    let r4 := revisitLast r3.2
    r1.1 = some c ∧ r2.1 = some b ∧ r3.1 = some a ∧ r4.1 = none := by
  intro s3 r1 r2 r3 r4
  obtain ⟨h1s, h1i⟩ := markReviewed_stack s a ka ha
  obtain ⟨h2s, h2i⟩ := markReviewed_stack (markReviewed s a ka).1 b kb (by rw [h1i]; exact hb)
  obtain ⟨h3s, h3i⟩ := markReviewed_stack (markReviewed (markReviewed s a ka).1 b kb).1 c kc
    (by rw [h2i, h1i]; exact hc)
  have hstack : s3.reviewStack = [a, b, c] := by
    show ((markReviewed (markReviewed (markReviewed s a ka).1 b kb).1 c kc).1).reviewStack = _
    rw [h3s, h2s, h1s, hempty]
    rfl
  have hr1 : r1 = (some c, { s3 with reviewStack := [a, b] }) := by
    show revisitLast s3 = _
    unfold revisitLast
    rw [hstack]
    rfl
  have hr2 : r2 = (some b, { s3 with reviewStack := [a] }) := by
    show revisitLast r1.2 = _
    rw [hr1]
    rfl
  have hr3 : r3 = (some a, { s3 with reviewStack := [] }) := by
    show revisitLast r2.2 = _
    rw [hr2]
    rfl
  have hr4 : r4 = (none, { s3 with reviewStack := [] }) := by
    show revisitLast r3.2 = _
    rw [hr3]
    rfl
  rw [hr1, hr2, hr3, hr4]
  exact ⟨rfl, rfl, rfl, rfl⟩

theorem revisit_last_reverse_order_witness :
    (0 ∈ wdb3.nodeIndex) ∧ (1 ∈ wdb3.nodeIndex) ∧ (2 ∈ wdb3.nodeIndex) ∧
    wdb3.reviewStack = [] ∧
    (let s3 := (markReviewed (markReviewed (markReviewed wdb3 0 true).1 1 false).1 2 true).1
     let r1 := revisitLast s3
     let r2 := revisitLast r1.2
     let r3 := revisitLast r2.2
     let r4 := revisitLast r3.2
     r1.1 = some 2 ∧ r2.1 = some 1 ∧ r3.1 = some 0 ∧ r4.1 = none) :=
  ⟨by decide, by decide, by decide, by decide,
   revisit_last_reverse_order wdb3 0 1 2 true false true
     (by decide) (by decide) (by decide) (by decide)⟩

/-- C9: a freshly added card appears exactly once in its category's
`get_by_category` result, and deleting it removes it from that
result. -/
theorem add_then_get_by_category_once (s : DB) (q a cat : String)
    (hfresh : s.nextId ∉ getByCategory s cat) :
    ((getByCategory (addCard s q a cat).1 cat).count (addCard s q a cat).2.1 = 1) ∧
    ((getByCategory (deleteCard (addCard s q a cat).1 (addCard s q a cat).2.1).1 cat).count
        (addCard s q a cat).2.1 = 0) := by
  have hid : (addCard s q a cat).2.1 = s.nextId := rfl
  have h1 : getByCategory (addCard s q a cat).1 cat =
      insertSorted s.nextId (getByCategory s cat) := by
    show lookupBucket (addToCategory cat s.nextId s.categories) cat = _
    exact lookupBucket_addTo _ _ _
  have hcount0 : (getByCategory s cat).count s.nextId = 0 := List.count_eq_zero.mpr hfresh
  have hcount1 : (getByCategory (addCard s q a cat).1 cat).count s.nextId = 1 := by
    rw [h1, count_insertSorted, hcount0]
  refine ⟨by rw [hid]; exact hcount1, ?_⟩
  rw [hid]
  have hmem : s.nextId ∈ ((addCard s q a cat).1).nodeIndex := by
    show s.nextId ∈ idxPut s.nodeIndex s.nextId
    unfold idxPut
    split
    · assumption
    · simp
  have hnode : (lookupCard ((addCard s q a cat).1).cards s.nextId).getD noCard =
      ⟨q, a, cat⟩ := by
    show (lookupCard ((s.nextId, ⟨q, a, cat⟩) :: s.cards) s.nextId).getD noCard = _
    rw [lookupCard_cons]
    simp
  have hcats : ((deleteCard (addCard s q a cat).1 s.nextId).1).categories =
      removeFromCategory cat s.nextId ((addCard s q a cat).1).categories := by
    simp only [deleteCard, if_pos hmem, hnode]
  have h2 : getByCategory (deleteCard (addCard s q a cat).1 s.nextId).1 cat =
      (getByCategory (addCard s q a cat).1 cat).erase s.nextId := by
    show lookupBucket ((deleteCard (addCard s q a cat).1 s.nextId).1).categories cat = _
    rw [hcats]
    exact lookupBucket_removeFrom _ _ _
  rw [h2, List.count_erase_self, hcount1]

theorem add_then_get_by_category_once_witness :
    (wdb.nextId ∉ getByCategory wdb "Math") ∧
    (((getByCategory (addCard wdb "Q2" "A2" "Math").1 "Math").count
        (addCard wdb "Q2" "A2" "Math").2.1 = 1) ∧
     ((getByCategory (deleteCard (addCard wdb "Q2" "A2" "Math").1
          (addCard wdb "Q2" "A2" "Math").2.1).1 "Math").count
        (addCard wdb "Q2" "A2" "Math").2.1 = 0)) :=
  ⟨by decide, add_then_get_by_category_once wdb "Q2" "A2" "Math" (by decide)⟩

/-- C2: when the store reports the edit's update as not modified, the
whole state — card fields, ordered list, index, queue, stack and the
category grouping — is exactly what it was before the call. -/
theorem edit_store_fail_leaves_state (s : DB) (id : Nat) (q a : String) (cat : Option String)
    (hcons : Consistent s) (hfail : editStoreOk s id q a cat = false) :
    (editCard s id q a cat).1 = s := by
  obtain ⟨hli, hil, hsi, his, hfields, hbucket, hsorted⟩ := hcons
  have hfail2 : (updateOne s.store id q a (if truthyCat cat then cat else none)).2 = false :=
    hfail
  have hstore : (updateOne s.store id q a (if truthyCat cat then cat else none)).1 = s.store :=
    updateOne_not_modified _ _ _ _ _ hfail2
  cases hd : findDoc s.store id with
  | none =>
    have hidx : id ∉ s.nodeIndex := by
      intro hmem
      have := his id hmem
      rw [hd] at this
      simp at this
    have hll : id ∉ s.linkedList := fun hmem => hidx (hli id hmem)
    simp only [editCard, if_neg hll, if_neg hidx, hstore]
  | some d =>
    have happ : applySet d q a (if truthyCat cat then cat else none) = d :=
      updateOne_found_not_modified _ _ _ _ _ d hd hfail2
    have hmemst : (id, d) ∈ s.store := findDoc_some_mem _ _ _ hd
    have hidx : id ∈ s.nodeIndex := hsi (id, d) hmemst
    have hll : id ∈ s.linkedList := hil id hidx
    have hlook : lookupCard s.cards id =
        some ⟨d.question, d.answer, d.category.getD "Uncategorized"⟩ :=
      hfields (id, d) hmemst
    have hq : q = d.question := congrArg Doc.question happ
    have ha : a = d.answer := congrArg Doc.answer happ
    have hcards1 : updateCard id
        (fun c => { c with question := q, answer := a }) s.cards = s.cards := by
      apply updateCard_eq_self
      intro c hc
      rw [hlook] at hc
      obtain rfl : (⟨d.question, d.answer, d.category.getD "Uncategorized"⟩ : Card) = c := by
        simpa using hc
      simp [← hq, ← ha]
    by_cases htr : truthyCat cat
    · obtain ⟨c0, rfl⟩ : ∃ c0, cat = some c0 := by
        cases cat with
        | none => simp [truthyCat] at htr
        | some c0 => exact ⟨c0, rfl⟩
      have hdc : d.category = some c0 := by
        have := congrArg Doc.category happ
        rw [if_pos htr] at this
        exact this.symm
      have hcatD : d.category.getD "Uncategorized" = c0 := by rw [hdc]; rfl
      have hcc : cardCategoryIn s.cards id = c0 := by
        simp [cardCategoryIn, hlook, hcatD]
      have hcards3 : updateCard id (fun c => { c with category := c0 }) s.cards = s.cards := by
        apply updateCard_eq_self
        intro c hc
        rw [hlook] at hc
        obtain rfl : (⟨d.question, d.answer, d.category.getD "Uncategorized"⟩ : Card) = c := by
          simpa using hc
        simp [hcatD]
      have hbmem : id ∈ lookupBucket s.categories c0 := by
        have := hbucket id hidx
        rw [hcc] at this
        exact this
      have hcats : updateCategory c0 c0 id s.categories = s.categories :=
        updateCategory_self _ _ _ hbmem hsorted
      rw [if_pos htr] at hstore
      simp only [editCard, if_pos hll, if_pos hidx, if_pos htr, hstore, hcards1,
                 Option.getD_some, hcc, hcards3, hcats]
    · rw [if_neg htr] at hstore
      simp only [editCard, if_pos hll, if_pos hidx, if_neg htr, hstore, hcards1]

theorem edit_store_fail_leaves_state_witness :
    Consistent wdb ∧ editStoreOk wdb 0 "Q1" "A1" (some "Math") = false ∧
    (editCard wdb 0 "Q1" "A1" (some "Math")).1 = wdb :=
  ⟨by decide, by decide,
   edit_store_fail_leaves_state wdb 0 "Q1" "A1" (some "Math") (by decide) (by decide)⟩
